import Mathlib

/-!
Verification development for the surf-report scraper
(src/python/surf_scrap/__init__.py and src/python/run_surf_scrap.py).

The Python source is shallowly embedded below.  Conventions used in the
embedding:

* Python float values are IEEE-754 binary64 values and are modelled
  exactly: a finite double is an exact dyadic fraction `Frac` (integer
  numerator over a positive power-of-two denominator, not normalised),
  next to the special values infinity, negative infinity and nan
  (`PyFloat`).  Parsing a decimal literal rounds it to the nearest
  binary64 value, ties to even, and overflows to an infinity from
  `2 ^ 1024` on, exactly as the correctly rounded conversion of
  CPython's `float` does; this rounding is computed below in exact
  integer arithmetic (`roundDecToDouble`).
* Python `None` is modelled by `Option.none`.
* A Python function that can raise an uncaught exception is modelled in
  `Except`; a raised exception is an `Except.error`.
* `datetime.datetime` is modelled as a six-field record compared
  lexicographically, which is exactly how Python compares datetimes.
* The two regular expressions of the source (`_ENTRY_PATTERN` and the
  field pattern of `_extract_phpdump_string`) are abstracted: an entry is
  a pair of an already parsed timestamp and a body, and a body is the
  association of phpdump field names to their string values, first match
  winning, exactly the information the regexes extract.
* On `Int`, the Lean operator `/` used below is euclidean division, which
  for the positive divisors appearing here coincides with floor division,
  i.e. with the Python operator `//`.  The Python builtin `int()` applied
  to a float truncates toward zero and is modelled with `Int.tdiv`.
-/

namespace SurfScrap

/-! ## Localised lookup tables (lines 21-33 of the source) -/

def _FR_WEEKDAYS : List String :=
  ["Lundi", "Mardi", "Mercredi", "Jeudi", "Vendredi", "Samedi", "Dimanche"]

def _FR_MONTHS : List String :=
  ["Janvier", "Février", "Mars", "Avril", "Mai", "Juin",
   "Juillet", "Août", "Septembre", "Octobre", "Novembre", "Décembre"]

def _FR_COMPASS_16 : List String :=
  ["Nord", "Nord Nord Est", "Nord Est", "Est Nord Est",
   "Est", "Est Sud Est", "Sud Est", "Sud Sud Est",
   "Sud", "Sud Sud Ouest", "Sud Ouest", "Ouest Sud Ouest",
   "Ouest", "Ouest Nord Ouest", "Nord Ouest", "Nord Nord Ouest"]

/-! ## Compass mapper (source lines 36-39)

Python computes `deg % 360` and then `int((deg + 11.25) // 22.5) % 16`.
With `deg % 360` an integer in `[0, 360)`, the float expression
`(deg + 11.25) // 22.5` is evaluated with an error of at most a few ulp,
and the exact quotient `(4*deg + 45)/90` has an odd numerator, hence is
never closer than `1/90` to an integer; the float floor division
therefore yields exactly `floor ((4*deg + 45)/90) = (4*deg + 45) / 90`
in integer floor division, which is how it is written below.  The
bridge to the real-valued formula `floor ((deg + 11.25) / 22.5)` of the
specification is proved as a theorem (`compass_index_spec` below). -/

def _deg_to_fr_compass (deg : Int) : String :=
  let d : Int := deg % 360
  let idx : Int := ((4 * d + 45) / 90) % 16
  _FR_COMPASS_16.getD idx.toNat ""

/-- The bucket index exactly as the specification words it:
`floor ((deg + 11.25) / 22.5) mod 16` after normalising `deg` into
`[0, 360)`, with real (here: rational) arithmetic. -/
def specCompassIdx (deg : Int) : Int :=
  Int.floor ((((deg % 360 : Int) : Rat) + 11.25) / 22.5) % 16

/-! ## Datetime model and the date formatter (source lines 42-44)

`DateTime` mirrors `datetime.datetime`; Python orders datetimes
lexicographically by (year, month, day, hour, minute, second).
`pyWeekday` is `datetime.weekday()` (Monday = 0) computed through the
proleptic Gregorian ordinal, exactly as CPython does. -/

structure DateTime where
  year : Nat
  month : Nat
  day : Nat
  hour : Nat
  minute : Nat
  second : Nat
deriving DecidableEq, Repr

def isLeapYear (y : Nat) : Bool :=
  y % 4 == 0 && (y % 100 != 0 || y % 400 == 0)

def monthLengths (y : Nat) : List Nat :=
  [31, if isLeapYear y then 29 else 28, 31, 30, 31, 30, 31, 31, 30, 31, 30, 31]

def daysBeforeMonth (y m : Nat) : Nat :=
  ((monthLengths y).take (m - 1)).sum

def toOrdinal (d : DateTime) : Nat :=
  365 * (d.year - 1) + (d.year - 1) / 4 + (d.year - 1) / 400 - (d.year - 1) / 100
    + daysBeforeMonth d.year d.month + d.day

def pyWeekday (d : DateTime) : Nat := (toOrdinal d + 6) % 7

def _format_fr_date (d : DateTime) : String :=
  _FR_WEEKDAYS.getD (pyWeekday d) "" ++ " " ++ toString d.day ++ " "
    ++ _FR_MONTHS.getD (d.month - 1) ""

def pad2 (n : Nat) : String :=
  if n < 10 then "0" ++ toString n else toString n

def timeLabel (d : DateTime) : String := pad2 d.hour ++ ":" ++ pad2 d.minute

/-! ## Python string.strip and float literal parsing

`pyStrip` models `str.strip()` restricted to ASCII whitespace.
`parsePyFloat` models the builtin `float` on a string argument: an
optional sign followed by either a case-insensitive infinity or nan
keyword, or a decimal literal `digits [. digits] [exponent]` with at
least one digit in the mantissa.  PEP-515 digit-separator underscores
are not modelled; no claim involves them.  CPython converts the literal
to the nearest IEEE-754 binary64 value, ties to even, producing an
infinity when the rounded magnitude reaches `2 ^ 1024`; that conversion
is implemented below in exact integer arithmetic (`roundDecToDouble`):
the mantissa is scaled so that a normal significand lies in
`[2 ^ 52, 2 ^ 53)`, rounded half-to-even against the exact remainder,
and renormalised when rounding carries over, with the subnormal range
rounded at the fixed scale `2 ^ (-1074)`.  A finite double is
represented exactly: `Frac.den` is a positive power of two
(`parsePyFloat_den_pos` below). -/

def isPySpace (c : Char) : Bool :=
  c = ' ' || c = '\t' || c = '\n' || c = '\r' || c = '\x0b' || c = '\x0c'

def pyStrip (s : String) : String :=
  String.mk (((s.data.dropWhile isPySpace).reverse.dropWhile isPySpace).reverse)

structure Frac where
  num : Int
  den : Nat
deriving DecidableEq, Repr

/-- The exact rational value of a `Frac`; used only in specification
statements, never in executable definitions. -/
def Frac.toRat (f : Frac) : Rat := (f.num : Rat) / (f.den : Rat)

inductive PyFloat where
  | finite (f : Frac)
  | inf
  | neginf
  | nan
deriving DecidableEq, Repr

def digitsToNat (cs : List Char) : Nat :=
  cs.foldl (fun a c => a * 10 + (c.toNat - 48)) 0

/-- Fuel-driven floor of the base-two logarithm (the fuel `n` itself is
always sufficient, and the recursion stays kernel-reducible). -/
def natLog2F : Nat → Nat → Nat
  | 0, _ => 0
  | fuel + 1, n => if n ≤ 1 then 0 else 1 + natLog2F fuel (n / 2)

def natLog2E (n : Nat) : Nat := natLog2F n n

/-- Whether `2 ^ e ≤ a / b`, in exact integer arithmetic. -/
def pow2Le (e : Int) (a b : Nat) : Bool :=
  if 0 ≤ e then decide (b * 2 ^ e.toNat ≤ a) else decide (b ≤ a * 2 ^ (-e).toNat)

/-- The greatest `e` with `2 ^ e ≤ a / b`, for `a, b ≥ 1`: the bit-length
estimate is off by at most one, so three candidates suffice. -/
def floorLog2Rat (a b : Nat) : Int :=
  let e0 : Int := (natLog2E a : Int) - (natLog2E b : Int)
  if pow2Le (e0 + 1) a b then e0 + 1
  else if pow2Le e0 a b then e0
  else e0 - 1

/-- Round `A / B` to the nearest integer, ties to even (`B ≥ 1`). -/
def roundHalfEvenDiv (A B : Nat) : Nat :=
  let q := A / B
  let r := A % B
  if 2 * r < B then q
  else if B < 2 * r then q + 1
  else if q % 2 = 0 then q else q + 1

/-- Round `(a / b) * 2 ^ shift` to the nearest integer, ties to even. -/
def scaledSignificand (a b : Nat) (shift : Int) : Nat :=
  if 0 ≤ shift then roundHalfEvenDiv (a * 2 ^ shift.toNat) b
  else roundHalfEvenDiv a (b * 2 ^ (-shift).toNat)

/-- The exact value `(-1) ^ neg * m * 2 ^ (e - 52)` as a fraction. -/
def fracOfSig (neg : Bool) (m : Nat) (e : Int) : Frac :=
  let n : Int := if neg then -(m : Int) else (m : Int)
  if 52 ≤ e then ⟨n * 2 ^ (e - 52).toNat, 1⟩ else ⟨n, 2 ^ (52 - e).toNat⟩

/-- Correctly rounded conversion of the exact rational
`(-1) ^ neg * a / b` (with `b ≥ 1`) to IEEE-754 binary64: nearest value,
ties to even, overflowing to an infinity; this is what CPython performs
when `float` parses a decimal literal. -/
def roundDecToDouble (neg : Bool) (a b : Nat) : PyFloat :=
  if a = 0 then PyFloat.finite ⟨0, 1⟩
  else
    let e := floorLog2Rat a b
    if e < -1022 then
      let m := scaledSignificand a b 1074
      PyFloat.finite ⟨if neg then -(m : Int) else (m : Int), 2 ^ 1074⟩
    else
      let m := scaledSignificand a b (52 - e)
      let m2 := if m = 2 ^ 53 then 2 ^ 52 else m
      let e2 := if m = 2 ^ 53 then e + 1 else e
      if 1023 < e2 then (if neg then PyFloat.neginf else PyFloat.inf)
      else PyFloat.finite (fracOfSig neg m2 e2)

/-- The decimal literal grammar: on success, the exact unsigned value of
the literal as a pair (numerator, positive power-of-ten denominator). -/
def parseDec (cs : List Char) : Option (Nat × Nat) :=
  let ip := cs.takeWhile Char.isDigit
  let rest := cs.dropWhile Char.isDigit
  let fp :=
    match rest with
    | '.' :: t => t.takeWhile Char.isDigit
    | _ => []
  let rest2 :=
    match rest with
    | '.' :: t => t.dropWhile Char.isDigit
    | _ => rest
  if ip.isEmpty && fp.isEmpty then none
  else
    let m := digitsToNat (ip ++ fp)
    match rest2 with
    | [] => some (m, 10 ^ fp.length)
    | e :: t =>
      if e = 'e' || e = 'E' then
        let negExp : Bool :=
          match t with
          | '-' :: _ => true
          | _ => false
        let t2 :=
          match t with
          | '+' :: t2 => t2
          | '-' :: t2 => t2
          | _ => t
        let ed := t2.takeWhile Char.isDigit
        if ed.isEmpty || !(t2.dropWhile Char.isDigit).isEmpty then none
        else if negExp then some (m, 10 ^ (fp.length + digitsToNat ed))
        else some (m * 10 ^ digitsToNat ed, 10 ^ fp.length)
      else none

def parsePyFloat (s : String) : Option PyFloat :=
  let cs := s.data
  let neg : Bool :=
    match cs with
    | '-' :: _ => true
    | _ => false
  let rest :=
    match cs with
    | '-' :: t => t
    | '+' :: t => t
    | _ => cs
  let low := rest.map Char.toLower
  if low = ['i', 'n', 'f'] || low = ['i', 'n', 'f', 'i', 'n', 'i', 't', 'y'] then
    some (if neg then PyFloat.neginf else PyFloat.inf)
  else if low = ['n', 'a', 'n'] then
    some PyFloat.nan
  else
    match parseDec rest with
    | none => none
    | some ab => some (roundDecToDouble neg ab.1 ab.2)

/-! ## The safe decoders (source lines 87-108)

`_safe_float` never raises: every exception of `float(x)` on a string
argument is a `ValueError` and is caught.

`_safe_int` computes `int(float(x))` and catches only `ValueError`.
`float(x)` raising on an unparseable literal is caught; `int(nan)`
raises `ValueError` and is also caught; but `int(inf)` and `int(-inf)`
raise `OverflowError`, which `except ValueError` does not catch, so
that exception escapes.  `pyTrunc` is the builtin `int` on a finite
value: truncation toward zero, `Int.tdiv` on the exact fraction. -/

inductive PyExc where
  | overflowError
deriving DecidableEq, Repr

def pyTrunc (f : Frac) : Int := f.num.tdiv f.den

def _safe_float (x : Option String) : Option PyFloat :=
  match x with
  | none => none
  | some s =>
    let s := pyStrip s
    if s = "" || s = "-" then none
    else parsePyFloat s

def _safe_int (x : Option String) : Except PyExc (Option Int) :=
  match x with
  | none => Except.ok none
  | some s =>
    let s := pyStrip s
    if s = "" || s = "-" then Except.ok none
    else
      match parsePyFloat s with
      | none => Except.ok none
      | some (PyFloat.finite f) => Except.ok (some (pyTrunc f))
      | some PyFloat.nan => Except.ok none
      | some PyFloat.inf => Except.error PyExc.overflowError
      | some PyFloat.neginf => Except.error PyExc.overflowError

/-! ## Field extraction (source lines 74-84)

The regex `["field"] => string(N) "VALUE"` is abstracted: a body is the
association of phpdump field names to their string values, first match
winning, which is exactly the information `re.search` returns there. -/

abbrev Body : Type := List (String × String)

def _extract_phpdump_string (body : Body) (field : String) : Option String :=
  (List.find? (fun p => p.1 == field) body).map (fun p => p.2)

/-! ## Datetime order, day keys -/

def dtLe (a b : DateTime) : Prop :=
  a.year < b.year ∨ (a.year = b.year ∧ (a.month < b.month ∨ (a.month = b.month ∧
    (a.day < b.day ∨ (a.day = b.day ∧ (a.hour < b.hour ∨ (a.hour = b.hour ∧
      (a.minute < b.minute ∨ (a.minute = b.minute ∧ a.second ≤ b.second)))))))))

instance : DecidableRel dtLe := fun a b => by unfold dtLe; infer_instance

abbrev DayKey : Type := Nat × Nat × Nat

/-- The calendar-day key of a record, `strftime("%Y-%m-%d")` in the
source (line 182); with the four-digit years produced by the entry
pattern, string equality of those keys is equality of this triple. -/
def dayKey (d : DateTime) : DayKey := (d.year, d.month, d.day)

def dkLe (a b : DayKey) : Prop :=
  a.1 < b.1 ∨ (a.1 = b.1 ∧ (a.2.1 < b.2.1 ∨ (a.2.1 = b.2.1 ∧ a.2.2 ≤ b.2.2)))

def dkLt (a b : DayKey) : Prop := dkLe a b ∧ a ≠ b

/-! ## Row construction (source lines 163-170)

`pyFmt1` is the f-string conversion `:.1f` on the exact value: round
half to even at one decimal, which is what IEEE formatting performs on
the exactly-representable values used in this development.  The special
float values format as Python prints them. -/

def fmtTenths (m : Nat) : String := toString (m / 10) ++ "." ++ toString (m % 10)

def roundTenthsHalfEven (f : Frac) : Int :=
  let a : Int := 10 * f.num
  let d : Int := (f.den : Int)
  let q0 : Int := a / d
  let r : Int := a % d
  if 2 * r < d then q0
  else if d < 2 * r then q0 + 1
  else if q0 % 2 = 0 then q0 else q0 + 1

def pyFmt1 : PyFloat → String
  | PyFloat.finite f =>
    let n := roundTenthsHalfEven f
    if n < 0 then "-" ++ fmtTenths n.natAbs else fmtTenths n.natAbs
  | PyFloat.inf => "inf"
  | PyFloat.neginf => "-inf"
  | PyFloat.nan => "nan"

structure Row where
  dt : DateTime
  date : String
  time : String
  waveSize : String
  windSpeed : String
  windDir : String
deriving DecidableEq, Repr

def buildRow (dt : DateTime) (houle houleMax : PyFloat) (vent dirDeg : Int) : Row :=
  { dt := dt
    date := _format_fr_date dt
    time := timeLabel dt
    waveSize := pyFmt1 houle ++ "m - " ++ pyFmt1 houleMax ++ "m"
    windSpeed := toString vent ++ "km/h"
    windDir := _deg_to_fr_compass dirDeg }

def rowLe (a b : Row) : Prop := dtLe a.dt b.dt

instance : DecidableRel rowLe := fun a b => by unfold rowLe; infer_instance

/-! ## Per-entry processing (source lines 145-170)

The model starts after the HTTP GET: an entry is a timestamp already
parsed by `strptime` together with its body.  Field decode order is the
order of the source: houle, houleMax, ventMoyen, directionVent are all
decoded before the completeness guard, so an `OverflowError` escaping
`_safe_int` aborts the pipeline even when an earlier field was already
absent. -/

def _target_times : List String :=
  ["06:00", "09:00", "12:00", "15:00", "18:00", "21:00"]

def processEntry (dt : DateTime) (body : Body) : Except PyExc (Option Row) :=
  if timeLabel dt ∈ _target_times then
    let houle := _safe_float (_extract_phpdump_string body "houle")
    let houleMax := _safe_float (_extract_phpdump_string body "houleMax")
    match _safe_int (_extract_phpdump_string body "ventMoyen") with
    | Except.error e => Except.error e
    | Except.ok vent =>
      match _safe_int (_extract_phpdump_string body "directionVent") with
      | Except.error e => Except.error e
      | Except.ok dirDeg =>
        match houle, houleMax, vent, dirDeg with
        | some h, some hm, some v, some dd => Except.ok (some (buildRow dt h hm v dd))
        | _, _, _, _ => Except.ok none
  else Except.ok none

def collectRows : List (DateTime × Body) → Except PyExc (List Row)
  | [] => Except.ok []
  | (dt, b) :: ms =>
    match processEntry dt b with
    | Except.error e => Except.error e
    | Except.ok r? =>
      match collectRows ms with
      | Except.error e => Except.error e
      | Except.ok rest =>
        Except.ok
          (match r? with
           | some r => r :: rest
           | none => rest)

/-! ## Sorting and the seven-day cutoff (source lines 177-188)

`list.sort` is a stable sort on the timestamp; any sort satisfying the
sortedness and permutation properties yields the same downstream
behaviour on the duplicate-free inputs considered by the claims, so
insertion sort is used.  `cutoffGo` is the cutoff loop verbatim:
membership test first, hard break when a new key arrives with seven
keys already seen, append the key when new, keep the record when its
key is in the seen list. -/

def sortedRows (rows : List Row) : List Row := List.insertionSort rowLe rows

def cutoffGo : List Row → List DayKey → List Row
  | [], _ => []
  | r :: rs, seen =>
    let k := dayKey r.dt
    if k ∉ seen ∧ 7 ≤ seen.length then []
    else
      let seen' := if k ∈ seen then seen else seen ++ [k]
      (if k ∈ seen' then [r] else []) ++ cutoffGo rs seen'

def selectDays (rows : List Row) : List Row := cutoffGo (sortedRows rows) []

/-- Distinct keys of a key list in order of first appearance, those
already in the accumulator skipped; `newKeys [] ks` lists the distinct
keys of `ks` in first-appearance order. -/
def newKeys : List DayKey → List DayKey → List DayKey
  | _, [] => []
  | seen, k :: ks =>
    if k ∈ seen then newKeys seen ks else k :: newKeys (seen ++ [k]) ks

/-- Key list of the sorted records. -/
def sortedKeys (rows : List Row) : List DayKey :=
  (sortedRows rows).map (fun r => dayKey r.dt)

/-- The first (at most) seven distinct calendar-day keys of the sorted
record list: exactly the days the cutoff loop can admit. -/
def first7 (rows : List Row) : List DayKey :=
  (newKeys [] ((sortedRows rows).map (fun r => dayKey r.dt))).take 7

/-! ## Output path resolution (source lines 47-65)

The file system is abstracted to what the source consults: the current
working directory, a directory test and an existence test.  `absPath`
models `os.path.abspath` on the inputs of interest: an absolute path is
returned unchanged, a relative one is joined to the working directory
(dot-segment collapsing is not modelled; no claim involves dot
segments).  `_ensure_parent_dir` returns the directory handed to
`os.makedirs`, if any. -/

structure FS where
  cwd : String
  isDir : String → Bool
  pathExists : String → Bool

def isAbsPath (p : String) : Bool :=
  match p.data with
  | '/' :: _ => true
  | _ => false

def joinPath (a b : String) : String := a ++ "/" ++ b

def absPath (fs : FS) (p : String) : String :=
  if isAbsPath p then p else joinPath fs.cwd p

def splitSlash : List Char → List (List Char)
  | [] => [[]]
  | c :: cs =>
    let r := splitSlash cs
    if c = '/' then [] :: r
    else
      match r with
      | [] => [[c]]
      | h :: t => (c :: h) :: t

def joinSlash : List (List Char) → List Char
  | [] => []
  | [x] => x
  | x :: xs => x ++ '/' :: joinSlash xs

/-- `os.path.dirname`: everything before the last path separator.  (On
a root-level path Python returns "/" where this returns ""; both make
the caller skip `makedirs`, and no claim involves root-level paths.) -/
def dirName (p : String) : String :=
  String.mk (joinSlash ((splitSlash p.data).dropLast))

def _normalize_output_path (fs : FS) (outputCsvPath : Option String) : String :=
  match outputCsvPath with
  | none => joinPath fs.cwd "data_surf.csv"
  | some p =>
    let a := absPath fs p
    if fs.isDir a then joinPath a "data_surf.csv" else a

def _ensure_parent_dir (fs : FS) (path : String) : Option String :=
  let parent := dirName (absPath fs path)
  if parent ≠ "" ∧ ¬ fs.pathExists parent then some parent else none

/-! ## The pipeline (source lines 114-199), after the HTTP GET

The result carries the final table, the resolved csv path that
`df.to_csv` writes to, and the directory created for it, if any; an
error result models an uncaught Python exception, raised before any
file write (the zero-row check at line 172 precedes the write at
line 196). -/

inductive ScrapeErr where
  | pyExc (e : PyExc)
  | dataExtraction
deriving DecidableEq, Repr

def scrape_surf_report (entries : List (DateTime × Body)) (outputCsvPath : Option String)
    (fs : FS) : Except ScrapeErr (List Row × String × Option String) :=
  match collectRows entries with
  | Except.error e => Except.error (ScrapeErr.pyExc e)
  | Except.ok rows =>
    if rows.isEmpty then Except.error ScrapeErr.dataExtraction
    else
      let kept := selectDays rows
      let out := _normalize_output_path fs outputCsvPath
      let made := _ensure_parent_dir fs out
      Except.ok (kept, out, made)

/-- The file writes a pipeline run performs: the single csv write on
success, nothing when an exception aborts the run first. -/
def writesOf (r : Except ScrapeErr (List Row × String × Option String)) : List String :=
  match r with
  | Except.ok (_, p, _) => [p]
  | Except.error _ => []

instance {α β : Type} [DecidableEq α] [DecidableEq β] : DecidableEq (Except α β) :=
  fun a b =>
    match a, b with
    | Except.ok x, Except.ok y =>
      match decEq x y with
      | isTrue h => isTrue (by rw [h])
      | isFalse h => isFalse (by intro hc; cases hc; exact h rfl)
    | Except.ok _, Except.error _ => isFalse (by intro hc; cases hc)
    | Except.error _, Except.ok _ => isFalse (by intro hc; cases hc)
    | Except.error x, Except.error y =>
      match decEq x y with
      | isTrue h => isTrue (by rw [h])
      | isFalse h => isFalse (by intro hc; cases hc; exact h rfl)

/-! ## Concrete data used by counterexamples and witnesses -/

/-- The six clock times of the time-of-day window, as
(hour, minute, second) triples: the instants whose `strftime("%H:%M")`
labels form `_target_times` with zero seconds. -/
def sixClockTimes : List (Nat × Nat × Nat) :=
  [(6, 0, 0), (9, 0, 0), (12, 0, 0), (15, 0, 0), (18, 0, 0), (21, 0, 0)]

def mkRow (y m d h : Nat) : Row :=
  buildRow ⟨y, m, d, h, 0, 0⟩ (PyFloat.finite ⟨8, 10⟩) (PyFloat.finite ⟨12, 10⟩) 3 135

/-- Ten distinct calendar days of valid records at a listed time of
day.  The first seven distinct days are the six October 2022 days and
2033-10-22; 2022-10-22 and 2033-10-22 are 4018 = 7 * 574 days apart, so
both are Saturdays and both carry the date label "Samedi 22 Octobre". -/
def exRows : List Row :=
  [mkRow 2022 10 22 6, mkRow 2022 10 23 6, mkRow 2022 10 24 6,
   mkRow 2022 10 25 6, mkRow 2022 10 26 6, mkRow 2022 10 27 6,
   mkRow 2033 10 22 6, mkRow 2033 10 23 6, mkRow 2033 10 24 6,
   mkRow 2033 10 25 6]

def exEntryDt : DateTime := ⟨2024, 5, 1, 6, 0, 0⟩

/-- A body whose houle field decodes to absent while ventMoyen holds an
infinity literal: the completeness guard is never reached because
`_safe_int` raises first. -/
def exBodyInf : Body :=
  [("houle", ""), ("houleMax", "1.0"), ("ventMoyen", "inf"), ("directionVent", "180")]

/-- A body with the houle field missing and every present field benign. -/
def exBodyMissing : Body :=
  [("houleMax", "1.0"), ("ventMoyen", "12"), ("directionVent", "180")]

/-- A complete, well-formed body. -/
def exBodyGood : Body :=
  [("houle", "0.8"), ("houleMax", "1.2"), ("ventMoyen", "12"), ("directionVent", "180")]

def exFS : FS :=
  { cwd := "/w"
    isDir := fun p => p == "/data"
    pathExists := fun p => p == "/w" || p == "/data" }

instance : IsTotal Row rowLe :=
  ⟨fun a b => by unfold rowLe dtLe; omega⟩

instance : IsTrans Row rowLe :=
  ⟨fun a b c => by unfold rowLe dtLe; omega⟩

end SurfScrap

open SurfScrap

/-! # Auxiliary lemmas -/

theorem dkLe_refl (a : DayKey) : dkLe a a := by
  unfold dkLe; omega

theorem dkLe_trans {a b c : DayKey} (h : dkLe a b) (h' : dkLe b c) : dkLe a c := by
  unfold dkLe at *; omega

theorem dkLe_antisymm {a b : DayKey} (h : dkLe a b) (h' : dkLe b a) : a = b := by
  obtain ⟨a1, a2, a3⟩ := a
  obtain ⟨b1, b2, b3⟩ := b
  unfold dkLe at h h'
  dsimp only at h h'
  simp only [Prod.mk.injEq]
  omega

theorem dtLe_dayKey_mono {a b : DateTime} (h : dtLe a b) : dkLe (dayKey a) (dayKey b) := by
  unfold dtLe at h; unfold dkLe dayKey; dsimp only; omega

theorem mem_newKeys {k : DayKey} : ∀ (seen ks : List DayKey),
    k ∈ newKeys seen ks ↔ k ∈ ks ∧ k ∉ seen := by
  intro seen ks
  induction ks generalizing seen with
  | nil => simp [newKeys]
  | cons k' ks ih =>
    by_cases hk : k' ∈ seen
    · rw [newKeys, if_pos hk, ih]
      constructor
      · rintro ⟨h1, h2⟩; exact ⟨List.mem_cons_of_mem _ h1, h2⟩
      · rintro ⟨h1, h2⟩
        rcases List.mem_cons.mp h1 with h | h
        · subst h; exact absurd hk h2
        · exact ⟨h, h2⟩
    · rw [newKeys, if_neg hk]
      simp only [List.mem_cons, ih, List.mem_append, List.mem_singleton]
      constructor
      · rintro (h | ⟨h1, h2⟩)
        · subst h; exact ⟨Or.inl rfl, hk⟩
        · exact ⟨Or.inr h1, fun hc => h2 (Or.inl hc)⟩
      · rintro ⟨h1 | h1, h2⟩
        · exact Or.inl h1
        · by_cases hkk : k = k'
          · exact Or.inl hkk
          · refine Or.inr ⟨h1, ?_⟩
            intro hc
            rcases hc with h | h | h
            · exact h2 h
            · exact hkk h
            · simp at h

theorem newKeys_fresh : ∀ (seen ks : List DayKey), ∀ k ∈ newKeys seen ks, k ∉ seen :=
  fun seen ks _ hk => ((mem_newKeys seen ks).mp hk).2

theorem newKeys_nodup : ∀ (seen ks : List DayKey), (newKeys seen ks).Nodup := by
  intro seen ks
  induction ks generalizing seen with
  | nil => simp [newKeys]
  | cons k' ks ih =>
    by_cases hk : k' ∈ seen
    · rw [newKeys, if_pos hk]; exact ih seen
    · rw [newKeys, if_neg hk]
      refine List.Nodup.cons ?_ (ih (seen ++ [k']))
      intro hc
      have := newKeys_fresh (seen ++ [k']) ks k' hc
      simp at this

theorem newKeys_sublist : ∀ (seen ks : List DayKey), (newKeys seen ks).Sublist ks := by
  intro seen ks
  induction ks generalizing seen with
  | nil => simp [newKeys]
  | cons k' ks ih =>
    by_cases hk : k' ∈ seen
    · rw [newKeys, if_pos hk]; exact (ih seen).cons k'
    · rw [newKeys, if_neg hk]; exact (ih (seen ++ [k'])).cons₂ k'

/-- The cutoff loop, characterised: it keeps the longest prefix of
records whose day key lies among the already-seen keys or the first
`7 - seen.length` fresh keys, and drops everything after. -/
theorem cutoffGo_eq_takeWhile : ∀ (rows : List Row) (seen : List DayKey),
    cutoffGo rows seen =
      rows.takeWhile (fun r =>
        decide (dayKey r.dt ∈
          seen ++ (newKeys seen (rows.map (fun r => dayKey r.dt))).take (7 - seen.length))) := by
  intro rows
  induction rows with
  | nil => intro seen; simp [cutoffGo]
  | cons r rs ih =>
    intro seen
    by_cases hk : dayKey r.dt ∈ seen
    · have hcond : ¬ (dayKey r.dt ∉ seen ∧ 7 ≤ seen.length) := by
        rintro ⟨h, _⟩; exact h hk
      rw [cutoffGo]
      simp only [if_neg hcond, if_pos hk]
      rw [List.map_cons, newKeys, if_pos hk]
      rw [List.takeWhile_cons]
      rw [if_pos (by exact decide_eq_true (List.mem_append_left _ hk))]
      simp only [List.singleton_append, List.cons.injEq, true_and]
      exact ih seen
    · by_cases hlen : 7 ≤ seen.length
      · rw [cutoffGo]
        simp only [if_pos (And.intro hk hlen)]
        rw [Nat.sub_eq_zero_of_le hlen]
        rw [List.take_zero, List.append_nil, List.takeWhile_cons]
        rw [if_neg (by simpa using hk)]
      · have hlt : seen.length < 7 := Nat.lt_of_not_le hlen
        have hmem : dayKey r.dt ∈ seen ++ [dayKey r.dt] := by simp
        rw [cutoffGo]
        simp only [if_neg (fun h : _ ∧ _ => hlen h.2), if_neg hk, if_pos hmem]
        rw [List.map_cons, newKeys, if_neg hk]
        have hsub : 7 - seen.length = (7 - (seen.length + 1)) + 1 := by omega
        rw [hsub, List.take_succ_cons]
        rw [List.takeWhile_cons]
        rw [if_pos (by exact decide_eq_true (by simp))]
        simp only [List.singleton_append, List.cons.injEq, true_and]
        rw [ih (seen ++ [dayKey r.dt])]
        have hlen' : (seen ++ [dayKey r.dt]).length = seen.length + 1 := by simp
        rw [hlen']
        have : seen ++ dayKey r.dt ::
            (newKeys (seen ++ [dayKey r.dt]) (rs.map (fun r => dayKey r.dt))).take
              (7 - (seen.length + 1))
            = (seen ++ [dayKey r.dt]) ++
              (newKeys (seen ++ [dayKey r.dt]) (rs.map (fun r => dayKey r.dt))).take
                (7 - (seen.length + 1)) := by
          rw [List.append_cons]
        rw [this]


theorem sortedRows_pairwise (rows : List Row) : (sortedRows rows).Pairwise rowLe :=
  List.sorted_insertionSort rowLe rows

theorem sortedRows_perm (rows : List Row) : (sortedRows rows).Perm rows :=
  List.perm_insertionSort rowLe rows

theorem sortedKeys_pairwise (rows : List Row) : (sortedKeys rows).Pairwise dkLe :=
  (sortedRows_pairwise rows).map _ (fun _ _ h => dtLe_dayKey_mono h)

theorem newKeys_sortedKeys_pairwise (rows : List Row) :
    (newKeys [] (sortedKeys rows)).Pairwise dkLt := by
  have hle : (newKeys [] (sortedKeys rows)).Pairwise dkLe :=
    (sortedKeys_pairwise rows).sublist (newKeys_sublist [] (sortedKeys rows))
  have hne : (newKeys [] (sortedKeys rows)).Pairwise (fun a b => a ≠ b) :=
    newKeys_nodup [] (sortedKeys rows)
  exact hle.and hne

/-- Downward closure: in a strictly increasing key list, a member below
some member of the length-`n` prefix lies in that prefix itself. -/
theorem mem_take_of_dkLe : ∀ (L : List DayKey) (n : Nat) (a b : DayKey),
    L.Pairwise dkLt → a ∈ L → b ∈ L.take n → dkLe a b → a ∈ L.take n := by
  intro L
  induction L with
  | nil => intro n a b _ ha; simp at ha
  | cons c L ih =>
    intro n a b hp ha hb hab
    cases n with
    | zero => simp at hb
    | succ m =>
      rw [List.take_succ_cons] at hb ⊢
      rcases List.mem_cons.mp ha with hac | ha'
      · exact hac ▸ List.mem_cons_self _ _
      · rcases List.mem_cons.mp hb with hbc | hb'
        · exfalso
          have hca : dkLt c a := (List.pairwise_cons.mp hp).1 a ha'
          have : a = c := dkLe_antisymm (hbc ▸ hab) hca.1
          exact hca.2 this.symm
        · exact List.mem_cons_of_mem _
            (ih m a b (List.pairwise_cons.mp hp).2 ha' hb' hab)

/-- In a sorted list, an element satisfying a predicate that also holds
on everything below it is kept by `takeWhile`. -/
theorem mem_takeWhile_of_sorted : ∀ (l : List Row) (p : Row → Bool),
    l.Pairwise rowLe → ∀ r, r ∈ l → p r = true →
    (∀ x, x ∈ l → rowLe x r → p x = true) → r ∈ l.takeWhile p := by
  intro l
  induction l with
  | nil => intro p _ r hr; simp at hr
  | cons c l ih =>
    intro p hp r hr hpr hclosed
    rcases List.mem_cons.mp hr with hrc | hr'
    · subst hrc
      rw [List.takeWhile_cons, if_pos hpr]
      exact List.mem_cons_self _ _
    · have hpc : p c = true :=
        hclosed c (List.mem_cons_self _ _) ((List.pairwise_cons.mp hp).1 r hr')
      rw [List.takeWhile_cons, if_pos hpc]
      refine List.mem_cons_of_mem _ ?_
      exact ih p (List.pairwise_cons.mp hp).2 r hr' hpr
        (fun x hx hxr => hclosed x (List.mem_cons_of_mem _ hx) hxr)

/-- `selectDays` keeps the longest sorted prefix of records whose day
key is among the first seven distinct day keys. -/
theorem selectDays_eq_takeWhile (rows : List Row) :
    selectDays rows =
      (sortedRows rows).takeWhile (fun r => decide (dayKey r.dt ∈ first7 rows)) := by
  unfold selectDays first7
  rw [cutoffGo_eq_takeWhile]
  simp only [List.nil_append, Nat.sub_zero]
  rfl

theorem mem_first7_of_le {rows : List Row} {a b : DayKey}
    (ha : a ∈ sortedKeys rows) (hb : b ∈ first7 rows) (hab : dkLe a b) :
    a ∈ first7 rows := by
  have ha' : a ∈ newKeys [] (sortedKeys rows) := by
    rw [mem_newKeys]; exact ⟨ha, by simp⟩
  have hb' : b ∈ (newKeys [] (sortedKeys rows)).take 7 := hb
  exact mem_take_of_dkLe _ 7 a b (newKeys_sortedKeys_pairwise rows) ha' hb' hab

/-- Completeness of the cutoff: a record of one of the first seven
distinct days survives. -/
theorem mem_selectDays {rows : List Row} {r : Row}
    (hr : r ∈ rows) (hk : dayKey r.dt ∈ first7 rows) : r ∈ selectDays rows := by
  rw [selectDays_eq_takeWhile]
  have hrs : r ∈ sortedRows rows := (sortedRows_perm rows).mem_iff.mpr hr
  refine mem_takeWhile_of_sorted _ _ (sortedRows_pairwise rows) r hrs
    (decide_eq_true hk) ?_
  intro x hx hxr
  refine decide_eq_true ?_
  have hxkeys : dayKey x.dt ∈ sortedKeys rows := List.mem_map_of_mem _ hx
  exact mem_first7_of_le hxkeys hk (dtLe_dayKey_mono hxr)

/-! # Bridging lemmas for the compass formula and the decoders -/

theorem compass_index_spec (deg : Int) :
    specCompassIdx deg = ((4 * (deg % 360) + 45) / 90) % 16 := by
  unfold specCompassIdx
  have h : (((deg % 360 : Int) : Rat) + 11.25) / 22.5
      = ((4 * (deg % 360) + 45 : Int) : Rat) / ((90 : Nat) : Rat) := by
    rw [div_eq_div_iff (by norm_num) (by norm_num)]
    push_cast
    ring
  rw [h, Rat.floor_intCast_div_natCast]
  norm_num

theorem roundDecToDouble_den_pos : ∀ (neg : Bool) (a b : Nat) (f : Frac),
    roundDecToDouble neg a b = PyFloat.finite f → 0 < f.den := by
  intro neg a b f h
  unfold roundDecToDouble at h
  split at h
  · rw [← PyFloat.finite.inj h]
    norm_num
  · dsimp only at h
    split at h
    · rw [← PyFloat.finite.inj h]
      exact Nat.pos_pow_of_pos _ (by norm_num)
    · split at h
      · split at h
        · split at h <;> exact absurd h (by simp)
        · rw [← PyFloat.finite.inj h]
          unfold fracOfSig
          dsimp only
          split
          · norm_num
          · exact Nat.pos_pow_of_pos _ (by norm_num)
      · split at h
        · split at h <;> exact absurd h (by simp)
        · rw [← PyFloat.finite.inj h]
          unfold fracOfSig
          dsimp only
          split
          · norm_num
          · exact Nat.pos_pow_of_pos _ (by norm_num)

theorem parsePyFloat_den_pos : ∀ (s : String) (f : Frac),
    parsePyFloat s = some (PyFloat.finite f) → 0 < f.den := by
  intro s f h
  unfold parsePyFloat at h
  dsimp only at h
  split at h
  · split at h <;> exact absurd h (by simp)
  · split at h
    · exact absurd h (by simp)
    · split at h
      · exact absurd h (by simp)
      · rename_i ab hab
        exact roundDecToDouble_den_pos _ ab.1 ab.2 f (Option.some.inj h)

/-! # Helper lemmas for the seven-day window -/

theorem perm_toFinset_eq {l l' : List DayKey} (h : l.Perm l') :
    l.toFinset = l'.toFinset := by
  ext k
  simp only [List.mem_toFinset]
  exact h.mem_iff

theorem mem_takeWhile_pred : ∀ (l : List Row) (p : Row → Bool) (r : Row),
    r ∈ l.takeWhile p → p r = true := by
  intro l
  induction l with
  | nil => intro p r hr; simp at hr
  | cons c l ih =>
    intro p r hr
    rw [List.takeWhile_cons] at hr
    by_cases hc : p c = true
    · rw [if_pos hc] at hr
      rcases List.mem_cons.mp hr with h | h
      · exact h ▸ hc
      · exact ih p r h
    · rw [if_neg hc] at hr
      simp at hr

theorem dt_eq_of_key_time {a b : DateTime} (hk : dayKey a = dayKey b)
    (ht : (a.hour, a.minute, a.second) = (b.hour, b.minute, b.second)) : a = b := by
  obtain ⟨ay, amo, ad, ah, ami, asec⟩ := a
  obtain ⟨by', bmo, bd, bh, bmi, bsec⟩ := b
  simp only [dayKey, Prod.mk.injEq] at hk ht
  simp only [DateTime.mk.injEq]
  exact ⟨hk.1, hk.2.1, hk.2.2, ht.1, ht.2.1, ht.2.2⟩

/-- At most six records can share one calendar day when all stand at
one of the six listed clock times and no two share a timestamp. -/
theorem countDay_le_six (rows : List Row)
    (htimes : ∀ r ∈ rows, (r.dt.hour, r.dt.minute, r.dt.second) ∈ sixClockTimes)
    (hnodup : (rows.map (fun r => r.dt)).Nodup) (k : DayKey) :
    (rows.filter (fun r => decide (dayKey r.dt = k))).length ≤ 6 := by
  have hsub : List.Sublist (rows.filter (fun r => decide (dayKey r.dt = k))) rows :=
    List.filter_sublist rows
  have hdt : ((rows.filter (fun r => decide (dayKey r.dt = k))).map (fun r => r.dt)).Nodup :=
    (hsub.map (fun r => r.dt)).nodup hnodup
  have hpw : (rows.filter (fun r => decide (dayKey r.dt = k))).Pairwise
      (fun a b => a.dt ≠ b.dt) :=
    List.pairwise_map.mp hdt
  have hkey : ∀ r ∈ rows.filter (fun r => decide (dayKey r.dt = k)), dayKey r.dt = k := by
    intro r hr
    exact of_decide_eq_true (List.mem_filter.mp hr).2
  have htr : (rows.filter (fun r => decide (dayKey r.dt = k))).Pairwise (fun a b =>
      (a.dt.hour, a.dt.minute, a.dt.second) ≠ (b.dt.hour, b.dt.minute, b.dt.second)) := by
    refine hpw.imp_of_mem ?_
    intro a b ha hb hne heq
    exact hne (dt_eq_of_key_time ((hkey a ha).trans (hkey b hb).symm) heq)
  have hnd : ((rows.filter (fun r => decide (dayKey r.dt = k))).map
      (fun r => (r.dt.hour, r.dt.minute, r.dt.second))).Nodup :=
    List.pairwise_map.mpr htr
  have hsubset : ((rows.filter (fun r => decide (dayKey r.dt = k))).map
      (fun r => (r.dt.hour, r.dt.minute, r.dt.second))).toFinset ⊆ sixClockTimes.toFinset := by
    intro x hx
    rw [List.mem_toFinset] at hx ⊢
    obtain ⟨r, hr, hrx⟩ := List.mem_map.mp hx
    exact hrx ▸ htimes r (hsub.subset hr)
  have hcard := Finset.card_le_card hsubset
  rw [List.toFinset_card_of_nodup hnd] at hcard
  rw [List.length_map] at hcard
  have hsix : sixClockTimes.toFinset.card ≤ 6 := by decide
  omega

theorem sortedKeys_toFinset (rows : List Row) :
    (sortedKeys rows).toFinset = (rows.map (fun r => dayKey r.dt)).toFinset := by
  unfold sortedKeys
  exact perm_toFinset_eq ((sortedRows_perm rows).map (fun r => dayKey r.dt))

theorem newKeys_nil_toFinset (ks : List DayKey) :
    (newKeys [] ks).toFinset = ks.toFinset := by
  ext k
  simp only [List.mem_toFinset]
  rw [mem_newKeys]
  simp

theorem first7_length {rows : List Row}
    (hdays : 10 ≤ (rows.map (fun r => dayKey r.dt)).toFinset.card) :
    (first7 rows).length = 7 := by
  have hnd := newKeys_nodup [] (sortedKeys rows)
  have hlen : (newKeys [] (sortedKeys rows)).length
      = (rows.map (fun r => dayKey r.dt)).toFinset.card := by
    rw [← List.toFinset_card_of_nodup hnd, newKeys_nil_toFinset, sortedKeys_toFinset]
  unfold first7
  rw [List.length_take]
  have heq : (newKeys [] (sortedKeys rows)).length
      = (newKeys [] ((sortedRows rows).map (fun r => dayKey r.dt))).length := rfl
  omega

theorem first7_nodup (rows : List Row) : (first7 rows).Nodup :=
  (newKeys_nodup [] (sortedKeys rows)).sublist (List.take_sublist _ _)

theorem selectDays_keys_subset {rows : List Row} {r : Row}
    (hr : r ∈ selectDays rows) : dayKey r.dt ∈ first7 rows := by
  rw [selectDays_eq_takeWhile] at hr
  exact of_decide_eq_true (mem_takeWhile_pred _ _ _ hr)

theorem first7_subset_selectDays_keys {rows : List Row} {k : DayKey}
    (hk : k ∈ first7 rows) :
    k ∈ (selectDays rows).map (fun r => dayKey r.dt) := by
  have hks : k ∈ sortedKeys rows :=
    ((mem_newKeys [] (sortedKeys rows)).mp (List.take_subset _ _ hk)).1
  obtain ⟨r, hr, hrk⟩ := List.mem_map.mp hks
  have hrrows : r ∈ rows := (sortedRows_perm rows).subset hr
  have hsel : r ∈ selectDays rows := mem_selectDays hrrows (hrk ▸ hk)
  exact List.mem_map.mpr ⟨r, hsel, hrk⟩

/-! # Claim theorems -/

/-- C1: the compass mapper computes bucket index
floor((deg + 11.25) / 22.5) mod 16 into the 16-entry localised table;
degrees 0, 180, 349 and 348 map to the labels "Nord", "Sud", "Nord"
and "Nord Nord Ouest" respectively. -/
theorem c1_compass_bucket_and_labels :
    (∀ deg : Int,
      _deg_to_fr_compass deg = _FR_COMPASS_16.getD (specCompassIdx deg).toNat "")
    ∧ _deg_to_fr_compass 0 = "Nord"
    ∧ _deg_to_fr_compass 180 = "Sud"
    ∧ _deg_to_fr_compass 349 = "Nord"
    ∧ _deg_to_fr_compass 348 = "Nord Nord Ouest" := by
  refine ⟨?_, by decide, by decide, by decide, by decide⟩
  intro deg
  rw [compass_index_spec]
  rfl

/-- C5: the compass label is 360-periodic in the degree argument, the
argument is normalised into [0, 360) by the modulo (also for negative
input, wrapping toward positive), and for example -90 degrees yields
the label of 270 degrees, "Ouest". -/
theorem c5_periodicity_and_normalisation :
    (∀ d k : Int, _deg_to_fr_compass (d + 360 * k) = _deg_to_fr_compass d)
    ∧ (∀ d : Int, 0 ≤ d % 360 ∧ d % 360 < 360
        ∧ _deg_to_fr_compass d = _deg_to_fr_compass (d % 360))
    ∧ _deg_to_fr_compass (-90) = "Ouest" := by
  refine ⟨?_, ?_, by decide⟩
  · intro d k
    unfold _deg_to_fr_compass
    rw [Int.add_mul_emod_self_left]
  · intro d
    refine ⟨Int.emod_nonneg d (by norm_num), Int.emod_lt_of_pos d (by norm_num), ?_⟩
    unfold _deg_to_fr_compass
    rw [Int.emod_emod_of_dvd d (dvd_refl 360)]

/-- C6: the decoder coercions satisfy the concrete equations
to_int("12.0") = 12, to_int("-") = absent, to_int("") = absent and
to_float("abc") = absent. -/
theorem c6_decoder_concrete_equations :
    _safe_int (some "12.0") = Except.ok (some 12)
    ∧ _safe_int (some "-") = Except.ok none
    ∧ _safe_int (some "") = Except.ok none
    ∧ _safe_float (some "abc") = none := by
  refine ⟨by decide, by decide, by decide, by decide⟩

/-- C2 (code bug): `_safe_int` is not exception free: on the strings
"inf" and "-Infinity" (accepted by `float`) the inner `int()` raises
`OverflowError`, which `except ValueError` does not catch.  By way of
contrast, `_safe_float` returns a value there, and `int(nan)` raises a
`ValueError` that is caught, yielding absent. -/
theorem c2_safe_int_raises_overflow :
    _safe_int (some "inf") = Except.error PyExc.overflowError
    ∧ _safe_int (some "-Infinity") = Except.error PyExc.overflowError
    ∧ _safe_float (some "inf") = some PyFloat.inf
    ∧ _safe_int (some "nan") = Except.ok none
    ∧ _safe_int (some "abc") = Except.ok none := by
  refine ⟨by decide, by decide, by decide, by decide, by decide⟩

/-- C7 (code bug): a record with a missing field is silently dropped
(first conjunct), but when the houle field decodes to absent (second
conjunct) while ventMoyen holds an infinity literal, processing the
record raises an uncaught `OverflowError` instead of dropping it
without error (third conjunct). -/
theorem c7_record_drop_and_overflow :
    processEntry exEntryDt exBodyMissing = Except.ok none
    ∧ _safe_float (_extract_phpdump_string exBodyInf "houle") = none
    ∧ processEntry exEntryDt exBodyInf = Except.error PyExc.overflowError := by
  refine ⟨by decide, by decide, by decide⟩

/-- C4 (code bug): with no entries, with an entry outside the listed
times of day, or with every entry missing a required field, the
pipeline fails with the Data-Extraction error and performs no file
write; but an entry whose houle field is absent (zero valid records)
and whose ventMoyen field holds an infinity literal aborts the
pipeline with an `OverflowError` instead of the Data-Extraction
error (still without a write). -/
theorem c4_zero_valid_records :
    scrape_surf_report [] none exFS = Except.error ScrapeErr.dataExtraction
    ∧ writesOf (scrape_surf_report [] none exFS) = []
    ∧ scrape_surf_report [(⟨2024, 5, 1, 7, 0, 0⟩, exBodyGood)] none exFS
        = Except.error ScrapeErr.dataExtraction
    ∧ scrape_surf_report [(exEntryDt, exBodyMissing)] none exFS
        = Except.error ScrapeErr.dataExtraction
    ∧ writesOf (scrape_surf_report [(exEntryDt, exBodyMissing)] none exFS) = []
    ∧ scrape_surf_report [(exEntryDt, exBodyInf)] none exFS
        = Except.error (ScrapeErr.pyExc PyExc.overflowError)
    ∧ writesOf (scrape_surf_report [(exEntryDt, exBodyInf)] none exFS) = [] := by
  refine ⟨by decide, by decide, by decide, by decide, by decide, by decide, by decide⟩

/-- C8: output-path resolution: unset gives "data_surf.csv" in the
working directory; an existing directory gets "data_surf.csv" appended;
any other path resolves to exactly the file it denotes (its absolute
form; literally itself when already absolute), and the parent directory
is created precisely when it is missing. -/
theorem c8_output_path_resolution :
    (∀ fs : FS, _normalize_output_path fs none = joinPath fs.cwd "data_surf.csv")
    ∧ (∀ (fs : FS) (p : String), fs.isDir (absPath fs p) = true →
        _normalize_output_path fs (some p) = joinPath (absPath fs p) "data_surf.csv")
    ∧ (∀ (fs : FS) (p : String), fs.isDir (absPath fs p) = false →
        _normalize_output_path fs (some p) = absPath fs p)
    ∧ (∀ (fs : FS) (p : String), isAbsPath p = true → fs.isDir p = false →
        _normalize_output_path fs (some p) = p)
    ∧ (∀ (fs : FS) (p : String), dirName (absPath fs p) ≠ "" →
        fs.pathExists (dirName (absPath fs p)) = false →
        _ensure_parent_dir fs p = some (dirName (absPath fs p)))
    ∧ (∀ (fs : FS) (p : String), fs.pathExists (dirName (absPath fs p)) = true →
        _ensure_parent_dir fs p = none) := by
  refine ⟨fun fs => rfl, ?_, ?_, ?_, ?_, ?_⟩
  · intro fs p h
    simp [_normalize_output_path, h]
  · intro fs p h
    simp [_normalize_output_path, h]
  · intro fs p hab h
    have ha : absPath fs p = p := by simp [absPath, hab]
    simp [_normalize_output_path, ha, h]
  · intro fs p hne hex
    simp only [_ensure_parent_dir]
    rw [if_pos]
    exact ⟨hne, by simp [hex]⟩
  · intro fs p hex
    simp only [_ensure_parent_dir]
    rw [if_neg]
    intro hc
    rw [hex] at hc
    exact hc.2 rfl

theorem c8_output_path_resolution_witness :
    _normalize_output_path exFS none = joinPath exFS.cwd "data_surf.csv"
    ∧ _normalize_output_path exFS (some "/data")
        = joinPath (absPath exFS "/data") "data_surf.csv"
    ∧ _normalize_output_path exFS (some "out.csv") = absPath exFS "out.csv"
    ∧ _normalize_output_path exFS (some "/w/out.csv") = "/w/out.csv"
    ∧ _ensure_parent_dir exFS "/w/sub/out.csv"
        = some (dirName (absPath exFS "/w/sub/out.csv"))
    ∧ _ensure_parent_dir exFS "/w/out.csv" = none :=
  ⟨c8_output_path_resolution.1 exFS,
   c8_output_path_resolution.2.1 exFS "/data" (by decide),
   c8_output_path_resolution.2.2.1 exFS "out.csv" (by decide),
   c8_output_path_resolution.2.2.2.1 exFS "/w/out.csv" (by decide) (by decide),
   c8_output_path_resolution.2.2.2.2.1 exFS "/w/sub/out.csv" (by decide) (by decide),
   c8_output_path_resolution.2.2.2.2.2 exFS "/w/out.csv" (by decide)⟩

set_option maxRecDepth 16384 in
/-- C9: integer coercion truncates toward zero on fractional input:
to_int("3.7") = 3 and to_int("-3.7") = -3 (not -4); in general, on any
string whose stripped form parses to a finite double (the literal
rounded to the nearest binary64 value), the result is that double with
its fractional part discarded: the truncated division of its exact
numerator by its positive denominator.  The last two conjuncts pin the
rounding semantics down: "1e400" overflows to infinity so the integer
coercion raises, and "0.99999999999999999" rounds to the double 1.0 so
the result is 1, not 0. -/
theorem c9_int_truncates_toward_zero :
    _safe_int (some "3.7") = Except.ok (some 3)
    ∧ _safe_int (some "-3.7") = Except.ok (some (-3))
    ∧ (∀ (s : String) (f : Frac), parsePyFloat (pyStrip s) = some (PyFloat.finite f) →
        _safe_int (some s) = Except.ok (some (Int.tdiv f.num (f.den : Int))))
    ∧ (∀ (s : String) (f : Frac), parsePyFloat (pyStrip s) = some (PyFloat.finite f) →
        0 < f.den)
    ∧ _safe_int (some "1e400") = Except.error PyExc.overflowError
    ∧ _safe_int (some "0.99999999999999999") = Except.ok (some 1) := by
  refine ⟨by decide, by decide, ?_, fun s f h => parsePyFloat_den_pos (pyStrip s) f h,
    by decide, by decide⟩
  intro s f h
  have hemp : parsePyFloat "" = none := by decide
  have hdash : parsePyFloat "-" = none := by decide
  have h1 : ¬ (pyStrip s = "") := by
    intro he; rw [he, hemp] at h; exact Option.noConfusion h
  have h2 : ¬ (pyStrip s = "-") := by
    intro he; rw [he, hdash] at h; exact Option.noConfusion h
  unfold _safe_int
  dsimp only
  rw [if_neg (by simp [h1, h2]), h]
  rfl

theorem c9_int_truncates_toward_zero_witness :
    parsePyFloat (pyStrip "7.5") = some (PyFloat.finite ⟨15 * 2 ^ 49, 2 ^ 50⟩)
    ∧ _safe_int (some "7.5")
        = Except.ok (some (Int.tdiv (15 * 2 ^ 49 : Int) (((2 ^ 50 : Nat) : Int)))) :=
  ⟨by decide, c9_int_truncates_toward_zero.2.2.1 "7.5" ⟨15 * 2 ^ 49, 2 ^ 50⟩ (by decide)⟩

/-- C10: the day cutoff never drops a record of an admitted day: the
day key is monotone in the timestamp, the cutoff keeps exactly a prefix
of the sorted sequence (the hard stop fires at the first record of an
eighth distinct day), and every record whose day key is among the first
seven distinct day keys of the sorted sequence appears in the output. -/
theorem c10_admitted_days_never_dropped :
    (∀ a b : DateTime, dtLe a b → dkLe (dayKey a) (dayKey b))
    ∧ (∀ rows : List Row,
        selectDays rows
          = (sortedRows rows).takeWhile (fun r => decide (dayKey r.dt ∈ first7 rows)))
    ∧ (∀ (rows : List Row) (r : Row),
        r ∈ rows → dayKey r.dt ∈ first7 rows → r ∈ selectDays rows) :=
  ⟨fun _ _ h => dtLe_dayKey_mono h,
   fun rows => selectDays_eq_takeWhile rows,
   fun _ _ hr hk => mem_selectDays hr hk⟩

theorem c10_admitted_days_never_dropped_witness :
    mkRow 2033 10 22 6 ∈ exRows
    ∧ dayKey (mkRow 2033 10 22 6).dt ∈ first7 exRows
    ∧ mkRow 2033 10 22 6 ∈ selectDays exRows :=
  ⟨by decide, by decide,
   c10_admitted_days_never_dropped.2.2 exRows (mkRow 2033 10 22 6)
     (by decide) (by decide)⟩

/-- C3 (amended): for a record list at the listed clock times, with
pairwise distinct timestamps, spanning at least ten distinct calendar
days, the table built by the sort-and-cutoff step covers exactly seven
distinct calendar-day keys (the printed date labels can coincide for
two admitted days a whole number of years apart, since labels omit the
year), carries at most six rows per day, is strictly ascending in
time, and the walk drops every record after the stop, none of which
belongs to an admitted day. -/
theorem c3_seven_day_window :
    ∀ rows : List Row,
      (∀ r ∈ rows, (r.dt.hour, r.dt.minute, r.dt.second) ∈ sixClockTimes) →
      (rows.map (fun r => r.dt)).Nodup →
      10 ≤ (rows.map (fun r => dayKey r.dt)).toFinset.card →
      ((selectDays rows).map (fun r => dayKey r.dt)).toFinset.card = 7
      ∧ (∀ k : DayKey,
          ((selectDays rows).filter (fun r => decide (dayKey r.dt = k))).length ≤ 6)
      ∧ (selectDays rows).Pairwise (fun a b => dtLe a.dt b.dt ∧ a.dt ≠ b.dt)
      ∧ ∃ rest : List Row,
          sortedRows rows = selectDays rows ++ rest
          ∧ ∀ r ∈ rest, dayKey r.dt ∉ (selectDays rows).map (fun r => dayKey r.dt) := by
  intro rows htimes hnodup hdays
  have hsubl : List.Sublist (selectDays rows) (sortedRows rows) := by
    rw [selectDays_eq_takeWhile]
    exact List.takeWhile_sublist _
  have hsplit : (sortedRows rows).takeWhile
        (fun r => decide (dayKey r.dt ∈ first7 rows))
      ++ (sortedRows rows).dropWhile (fun r => decide (dayKey r.dt ∈ first7 rows))
      = sortedRows rows :=
    List.takeWhile_append_dropWhile _ _
  refine ⟨?_, ?_, ?_, ?_⟩
  · have hset : ((selectDays rows).map (fun r => dayKey r.dt)).toFinset
        = (first7 rows).toFinset := by
      ext k
      simp only [List.mem_toFinset]
      constructor
      · intro hk
        obtain ⟨r, hr, hrk⟩ := List.mem_map.mp hk
        exact hrk ▸ selectDays_keys_subset hr
      · intro hk
        exact first7_subset_selectDays_keys hk
    rw [hset, List.toFinset_card_of_nodup (first7_nodup rows), first7_length hdays]
  · intro k
    have h1 : List.Sublist
        ((selectDays rows).filter (fun r => decide (dayKey r.dt = k)))
        ((sortedRows rows).filter (fun r => decide (dayKey r.dt = k))) :=
      hsubl.filter _
    have h2 : ((sortedRows rows).filter (fun r => decide (dayKey r.dt = k))).length
        = (rows.filter (fun r => decide (dayKey r.dt = k))).length :=
      ((sortedRows_perm rows).filter _).length_eq
    have h3 := countDay_le_six rows htimes hnodup k
    have h4 := h1.length_le
    omega
  · have hsorted : (selectDays rows).Pairwise rowLe :=
      (sortedRows_pairwise rows).sublist hsubl
    have hsdt : ((sortedRows rows).map (fun r => r.dt)).Nodup :=
      ((sortedRows_perm rows).map (fun r => r.dt)).nodup_iff.mpr hnodup
    have hkeptdt : ((selectDays rows).map (fun r => r.dt)).Nodup :=
      (hsubl.map (fun r => r.dt)).nodup hsdt
    have hne : (selectDays rows).Pairwise (fun a b => a.dt ≠ b.dt) :=
      List.pairwise_map.mp hkeptdt
    exact hsorted.and hne
  · refine ⟨(sortedRows rows).dropWhile
        (fun r => decide (dayKey r.dt ∈ first7 rows)), ?_, ?_⟩
    · rw [selectDays_eq_takeWhile]
      exact hsplit.symm
    · intro r hr hmem
      have hk7 : dayKey r.dt ∈ first7 rows := by
        obtain ⟨r', hr', hk'⟩ := List.mem_map.mp hmem
        exact hk' ▸ selectDays_keys_subset hr'
      have hrin : r ∈ sortedRows rows := by
        rw [← hsplit]
        exact List.mem_append_right _ hr
      have hrrows : r ∈ rows := (sortedRows_perm rows).subset hrin
      have hrkept : r ∈ (sortedRows rows).takeWhile
          (fun r => decide (dayKey r.dt ∈ first7 rows)) := by
        rw [← selectDays_eq_takeWhile]
        exact mem_selectDays hrrows hk7
      have hndrows : rows.Nodup := hnodup.of_map
      have hnds : (sortedRows rows).Nodup :=
        (sortedRows_perm rows).nodup_iff.mpr hndrows
      rw [← hsplit] at hnds
      exact (List.nodup_append.mp hnds).2.2 hrkept hr

/-- C3, counterexample to the claim as stated: ten distinct days of
valid records at listed times of day (the three stated hypotheses
hold), yet the resulting table carries six distinct date labels, not
seven: the admitted days 2022-10-22 and 2033-10-22 share the label
"Samedi 22 Octobre" because the label has no year. -/
theorem c3_seven_day_window_counterexample :
    (exRows.all (fun r => decide ((r.dt.hour, r.dt.minute, r.dt.second) ∈ sixClockTimes)))
        = true
    ∧ (exRows.map (fun r => r.dt)).Nodup
    ∧ (exRows.map (fun r => dayKey r.dt)).toFinset.card = 10
    ∧ ((selectDays exRows).map (fun r => r.date)).toFinset.card = 6
    ∧ (mkRow 2022 10 22 6).date = "Samedi 22 Octobre"
    ∧ (mkRow 2033 10 22 6).date = "Samedi 22 Octobre" := by
  refine ⟨by decide, by decide, by decide, by decide, by decide, by decide⟩

theorem c3_seven_day_window_witness :
    ((selectDays exRows).map (fun r => dayKey r.dt)).toFinset.card = 7
    ∧ ((selectDays exRows).filter
        (fun r => decide (dayKey r.dt = (2022, 10, 22)))).length ≤ 6 :=
  ⟨(c3_seven_day_window exRows (by decide) (by decide) (by decide)).1,
   (c3_seven_day_window exRows (by decide) (by decide) (by decide)).2.1 (2022, 10, 22)⟩
